import Mathlib

/-!
Verification development for the yuv-tools scripts (yuv_analyzer.py,
yuv_viewer.py, yuv_batch_viewer.py, examples/yuv_viewer_minimal.py,
examples/yuv_viewer_simple.py, examples/yuv_analyzer_enhanced.py).

The Python code is shallowly embedded: byte streams and planes are lists of
natural numbers (each sample a byte value 0-255 in practice), Python ints are
`Int`/`Nat`, Python true division (`/`) is exact rational division, and the
file cursor (`seek`/`read`) is modelled by `List.drop`/`List.take` over the
stream contents.
-/

/-- Video width constant shared verbatim by every script. -/
def VIDEO_WIDTH : ℕ := 736

/-- Video height constant shared verbatim by every script. -/
def VIDEO_HEIGHT : ℕ := 442

/-- Y-plane size formula `width * height`, parameterized by the resolution so
that the layout arithmetic of the scripts can be stated for all dimensions. -/
def ySizeOf (w h : ℕ) : ℕ := w * h

/-- UV-plane size formula `(width // 2) * (height // 2)` (Python floor
division). -/
def uvSizeOf (w h : ℕ) : ℕ := (w / 2) * (h / 2)

/-- Frame size formula `Y_SIZE + 2 * UV_SIZE`. -/
def frameSizeOf (w h : ℕ) : ℕ := ySizeOf w h + 2 * uvSizeOf w h

/-- Y_SIZE = VIDEO_WIDTH * VIDEO_HEIGHT, as in every script. -/
def Y_SIZE : ℕ := ySizeOf VIDEO_WIDTH VIDEO_HEIGHT

/-- UV_SIZE = (VIDEO_WIDTH // 2) * (VIDEO_HEIGHT // 2). -/
def UV_SIZE : ℕ := uvSizeOf VIDEO_WIDTH VIDEO_HEIGHT

/-- FRAME_SIZE = Y_SIZE + 2 * UV_SIZE. -/
def FRAME_SIZE : ℕ := frameSizeOf VIDEO_WIDTH VIDEO_HEIGHT

/-- Embedding of `read_yuv_frame` (yuv_analyzer.py lines 21-39; verbatim
copies in the other scripts): seek to `frame_number * FRAME_SIZE`, read
`FRAME_SIZE` bytes, return `None, None, None` if fewer bytes were obtained,
else slice the buffer into the three planes.  The seek+read is modelled by
`drop` then `take`; the single undifferentiated failure of the code is
`none`. -/
def read_yuv_frame (file : List ℕ) (frame_number : ℕ) :
    Option (List ℕ × List ℕ × List ℕ) :=
  let frame_data := (file.drop (frame_number * FRAME_SIZE)).take FRAME_SIZE
  if frame_data.length ≠ FRAME_SIZE then none
  else some (frame_data.take Y_SIZE,
    (frame_data.drop Y_SIZE).take UV_SIZE,
    (frame_data.drop (Y_SIZE + UV_SIZE)).take UV_SIZE)

/-- Embedding of `get_frame_count` (yuv_analyzer.py lines 41-46): the file
size floor-divided by FRAME_SIZE. -/
def get_frame_count (file_size : ℕ) : ℕ := file_size / FRAME_SIZE

/-- Embedding of `clamp` / `max(0, min(255, x))` as used by the integer
conversion path; the result is a byte value. -/
def clamp8 (x : ℤ) : ℕ := (max 0 (min 255 x)).toNat

/-- Embedding of `yuv_to_rgb` (yuv_batch_viewer.py lines 32-43); the per-pixel
body of `yuv420_to_rgb_manual` (examples/yuv_viewer_minimal.py lines 56-63) is
identical.  Python's `x >> 8` on a signed integer is an arithmetic shift,
i.e. floor division by 256; Lean's `Int` division rounds the same way for the
positive divisor 256. -/
def yuv_to_rgb (y u v : ℕ) : ℕ × ℕ × ℕ :=
  let c : ℤ := (y : ℤ) - 16
  let d : ℤ := (u : ℤ) - 128
  let e : ℤ := (v : ℤ) - 128
  (clamp8 ((298 * c + 409 * e + 128) / 256),
   clamp8 ((298 * c - 100 * d - 208 * e + 128) / 256),
   clamp8 ((298 * c + 516 * d + 128) / 256))

/-- Conversion of a clipped numpy value to a byte: `np.clip(x, 0, 255)`
followed by `astype(np.uint8)`.  The uint8 cast truncates toward zero, which
on the clipped (hence nonnegative) value is the floor. -/
def toByte (x : ℚ) : ℕ := (⌊max 0 (min 255 x)⌋).toNat

/-- Embedding of the per-pixel floating-point conversion of
`yuv420_to_rgb_simple` (examples/yuv_viewer_simple.py lines 39-49).  The
decimal coefficient literals are represented exactly as rationals; at the
inputs used in the theorems below every float32 operation of the original is
exact, so the rational model coincides with the numpy computation there. -/
def yuv_to_rgb_float (y u v : ℕ) : ℕ × ℕ × ℕ :=
  let r : ℚ := (y : ℚ) + 1.402 * ((v : ℚ) - 128)
  let g : ℚ := (y : ℚ) - 0.344136 * ((u : ℚ) - 128) - 0.714136 * ((v : ℚ) - 128)
  let b : ℚ := (y : ℚ) + 1.772 * ((u : ℚ) - 128)
  (toByte r, toByte g, toByte b)

/-- Embedding of the full-frame loop of `yuv420_to_rgb_manual`
(examples/yuv_viewer_minimal.py lines 42-65) and of `save_frame_as_ppm`
(yuv_batch_viewer.py lines 56-72): row-major iteration, nearest-neighbor
chroma lookup at `(row // 2) * (VIDEO_WIDTH // 2) + col // 2`, with the
code's out-of-range fallbacks (0 for Y, 128 for U/V). -/
def yuv420_to_rgb_manual (y_plane u_plane v_plane : List ℕ) :
    List (ℕ × ℕ × ℕ) :=
  (List.range VIDEO_HEIGHT).flatMap (fun row =>
    (List.range VIDEO_WIDTH).map (fun col =>
      let y_idx := row * VIDEO_WIDTH + col
      let y := if y_idx < y_plane.length then y_plane.getD y_idx 0 else 0
      let uv_idx := (row / 2) * (VIDEO_WIDTH / 2) + col / 2
      let u := if uv_idx < u_plane.length then u_plane.getD uv_idx 128 else 128
      let v := if uv_idx < v_plane.length then v_plane.getD uv_idx 128 else 128
      yuv_to_rgb y u v))

/-- Python's `min` over a list, a left fold from the first element
(yuv_analyzer.py line 63).  The original raises on an empty list; 0 here. -/
def listMin : List ℕ → ℕ
  | [] => 0
  | x :: xs => xs.foldl Nat.min x

/-- Python's `max` over a list, a left fold from the first element. -/
def listMax : List ℕ → ℕ
  | [] => 0
  | x :: xs => xs.foldl Nat.max x

/-- Python's `sum(l) / len(l)` (yuv_analyzer.py line 64), true division
modelled as exact rational division. -/
def listMean (l : List ℕ) : ℚ := (l.sum : ℚ) / (l.length : ℚ)

/-- Python's `len(set(l))` (yuv_analyzer.py line 65). -/
def uniqueCount (l : List ℕ) : ℕ := l.dedup.length

/-- One iteration of the histogram loop of `analyze_y_plane_distribution`
(examples/yuv_analyzer_enhanced.py lines 107-111):
`bins[min(val // 16, 15)] += 1`. -/
def histStep (bins : List ℕ) (val : ℕ) : List ℕ :=
  bins.set (min (val / 16) 15) (bins.getD (min (val / 16) 15) 0 + 1)

/-- The 16-bucket histogram of `analyze_y_plane_distribution`, starting from
`[0] * 16`. -/
def histogram16 (l : List ℕ) : List ℕ := l.foldl histStep (List.replicate 16 0)

/-- Python's `abs(a - b)` on two byte values read as ints. -/
def absDiff (a b : ℕ) : ℕ := ((a : ℤ) - (b : ℤ)).natAbs

/-- The per-sample difference list of `compare_frames` (yuv_analyzer.py line
138): `[abs(a - b) for a, b in zip(p1, p2)]`.  Python's `zip` silently
truncates to the shorter sequence, exactly as `List.zipWith` does. -/
def plane_diffs (p1 p2 : List ℕ) : List ℕ := List.zipWith absDiff p1 p2

/-- `sum(diffs) / len(diffs)` of `compare_frames` (line 142). -/
def avg_diff (p1 p2 : List ℕ) : ℚ := listMean (plane_diffs p1 p2)

/-- `max(diffs)` of `compare_frames` (line 146). -/
def max_diff (p1 p2 : List ℕ) : ℕ := listMax (plane_diffs p1 p2)

/-- `sum(1 for d in diffs if d > 50)` of `compare_frames` (line 156). -/
def big_diffs (p1 p2 : List ℕ) : ℕ :=
  (plane_diffs p1 p2).countP (fun d => decide (50 < d))

/-- Symbolic tags for the messages appended by the health check of
`analyze_frame_basic` (yuv_analyzer.py lines 98-113), in code order. -/
inductive BasicIssue
  | lowLuminanceContrast
  | fewUniqueY
  | fewUniqueU
  | fewUniqueV
  | yConstant
  | uConstant
  | vConstant
  deriving DecidableEq

/-- Python's `all(val == l[0] for val in l)`; `l[0]` is modelled by
`headD 0` (the original raises on an empty plane, which never occurs for a
valid frame). -/
def isConstant (l : List ℕ) : Bool := l.all (fun val => val == l.headD 0)

/-- Embedding of the health check of `analyze_frame_basic` (yuv_analyzer.py
lines 98-113): a single undifferentiated `issues` list with no severity
levels, appended in code order. -/
def basicIssues (y u v : List ℕ) : List BasicIssue :=
  (if listMax y - listMin y < 20 then [BasicIssue.lowLuminanceContrast] else []) ++
  (if uniqueCount y < 50 then [BasicIssue.fewUniqueY] else []) ++
  (if uniqueCount u < 10 then [BasicIssue.fewUniqueU] else []) ++
  (if uniqueCount v < 10 then [BasicIssue.fewUniqueV] else []) ++
  (if isConstant y then [BasicIssue.yConstant] else []) ++
  (if isConstant u then [BasicIssue.uConstant] else []) ++
  (if isConstant v then [BasicIssue.vConstant] else [])

/-- Symbolic tags for the entries of the critical `issues` list of
`check_frame_validity` (examples/yuv_analyzer_enhanced.py lines 135-193). -/
inductive EnhCritical
  | veryLowYRange (r : ℕ)
  | strideIssue
  deriving DecidableEq

/-- Symbolic tags for the entries of the `warnings` list of
`check_frame_validity`. -/
inductive EnhWarning
  | lowYDiversity (n : ℕ)
  | manyZeroY (zeros total : ℕ)
  | lowUDiversity (n : ℕ)
  | lowVDiversity (n : ℕ)
  deriving DecidableEq

/-- The `line_end_pattern` list of `check_frame_validity` (lines 169-174):
Y samples at index `row * VIDEO_WIDTH + VIDEO_WIDTH - 1` for the first
`min(10, VIDEO_HEIGHT)` rows, skipping out-of-range indices. -/
def lineEndPattern (y : List ℕ) : List ℕ :=
  (List.range (min 10 VIDEO_HEIGHT)).filterMap (fun row =>
    let line_end_idx := row * VIDEO_WIDTH + VIDEO_WIDTH - 1
    if line_end_idx < y.length then some (y.getD line_end_idx 0) else none)

/-- The critical `issues` list of `check_frame_validity`, in code order:
`y_range < 30` (lines 148-149), then the stride heuristic
`len(set(line_end_pattern)) == 1 and len(line_end_pattern) > 5`
(lines 176-177). -/
def enhCriticals (y : List ℕ) : List EnhCritical :=
  (if listMax y - listMin y < 30 then
    [EnhCritical.veryLowYRange (listMax y - listMin y)] else []) ++
  (if uniqueCount (lineEndPattern y) = 1 ∧ 5 < (lineEndPattern y).length then
    [EnhCritical.strideIssue] else [])

/-- The `warnings` list of `check_frame_validity`, in code order (lines
150-165).  Python compares `y_zeros > len(y) * 0.1` with a binary float 0.1;
it is modelled as the exact rational 1/10, which agrees with the float
comparison at every input appearing in the theorems below. -/
def enhWarnings (y u v : List ℕ) : List EnhWarning :=
  (if uniqueCount y < 50 then [EnhWarning.lowYDiversity (uniqueCount y)] else []) ++
  (if ((y.countP (fun val => val == 0) : ℚ)) > (y.length : ℚ) * (1 / 10) then
    [EnhWarning.manyZeroY (y.countP (fun val => val == 0)) y.length] else []) ++
  (if uniqueCount u < 10 then [EnhWarning.lowUDiversity (uniqueCount u)] else []) ++
  (if uniqueCount v < 10 then [EnhWarning.lowVDiversity (uniqueCount v)] else [])

/-- Error type of the spec's PlaneLayout contract (spec sections 4.1 and 7);
the scripts themselves define no such error. -/
inductive LayoutError
  | InvalidResolution
  deriving DecidableEq

/-- The PlaneLayout record of the spec (section 3). -/
structure PlaneLayout where
  ySize : ℕ
  uvSize : ℕ
  frameSize : ℕ
  deriving DecidableEq

/-- Modelled from the spec (section 4.1), for refinement comparison only:
a layout computation that fails with `InvalidResolution` when width or height
is zero or odd, and otherwise produces the three sizes. -/
def planeLayoutSpec (w h : ℕ) : Except LayoutError PlaneLayout :=
  if w = 0 ∨ h = 0 ∨ w % 2 = 1 ∨ h % 2 = 1 then
    Except.error LayoutError.InvalidResolution
  else Except.ok ⟨ySizeOf w h, uvSizeOf w h, frameSizeOf w h⟩

/-- The scripts' layout computation (yuv_analyzer.py lines 13-19): the sizes
are computed unconditionally with floor division, with no validation of the
dimensions; wrapped in the same `Except` type (always `ok`) so it can be
compared with `planeLayoutSpec`. -/
def planeLayoutCode (w h : ℕ) : Except LayoutError PlaneLayout :=
  Except.ok ⟨ySizeOf w h, uvSizeOf w h, frameSizeOf w h⟩

theorem mem_ite_single {α : Type} (a b : α) (c : Prop) [Decidable c] :
    (a ∈ if c then [b] else ([] : List α)) ↔ c ∧ a = b := by
  by_cases h : c <;> simp [h]

theorem foldl_min_le_init (xs : List ℕ) : ∀ a : ℕ, xs.foldl Nat.min a ≤ a := by
  induction xs with
  | nil => intro a; exact le_refl a
  | cons x xs ih =>
    intro a
    exact le_trans (ih (Nat.min a x)) (Nat.min_le_left a x)

theorem foldl_min_le_mem (xs : List ℕ) :
    ∀ a x : ℕ, x ∈ xs → xs.foldl Nat.min a ≤ x := by
  induction xs with
  | nil => intro a x hx; cases hx
  | cons y ys ih =>
    intro a x hx
    rcases List.mem_cons.mp hx with h | h
    · subst h
      exact le_trans (foldl_min_le_init ys (Nat.min a x)) (Nat.min_le_right a x)
    · exact ih (Nat.min a y) x h

theorem foldl_min_eq_or_mem (xs : List ℕ) :
    ∀ a : ℕ, xs.foldl Nat.min a = a ∨ xs.foldl Nat.min a ∈ xs := by
  induction xs with
  | nil => intro a; exact Or.inl rfl
  | cons x xs ih =>
    intro a
    rcases ih (Nat.min a x) with h | h
    · have hfold : (x :: xs).foldl Nat.min a = Nat.min a x := h
      rcases Nat.le_total a x with h1 | h1
      · have ha : Nat.min a x = a := Nat.min_eq_left h1
        exact Or.inl (hfold.trans ha)
      · refine Or.inr ?_
        have hx : Nat.min a x = x := Nat.min_eq_right h1
        rw [hfold, hx]
        exact List.mem_cons_self x xs
    · exact Or.inr (List.mem_cons_of_mem x h)

theorem foldl_max_ge_init (xs : List ℕ) : ∀ a : ℕ, a ≤ xs.foldl Nat.max a := by
  induction xs with
  | nil => intro a; exact le_refl a
  | cons x xs ih =>
    intro a
    exact le_trans (Nat.le_max_left a x) (ih (Nat.max a x))

theorem foldl_max_ge_mem (xs : List ℕ) :
    ∀ a x : ℕ, x ∈ xs → x ≤ xs.foldl Nat.max a := by
  induction xs with
  | nil => intro a x hx; cases hx
  | cons y ys ih =>
    intro a x hx
    rcases List.mem_cons.mp hx with h | h
    · subst h
      exact le_trans (Nat.le_max_right a x) (foldl_max_ge_init ys (Nat.max a x))
    · exact ih (Nat.max a y) x h

theorem foldl_max_eq_or_mem (xs : List ℕ) :
    ∀ a : ℕ, xs.foldl Nat.max a = a ∨ xs.foldl Nat.max a ∈ xs := by
  induction xs with
  | nil => intro a; exact Or.inl rfl
  | cons x xs ih =>
    intro a
    rcases ih (Nat.max a x) with h | h
    · have hfold : (x :: xs).foldl Nat.max a = Nat.max a x := h
      rcases Nat.le_total a x with h1 | h1
      · refine Or.inr ?_
        have hx : Nat.max a x = x := Nat.max_eq_right h1
        rw [hfold, hx]
        exact List.mem_cons_self x xs
      · have ha : Nat.max a x = a := Nat.max_eq_left h1
        exact Or.inl (hfold.trans ha)
    · exact Or.inr (List.mem_cons_of_mem x h)

theorem histStep_length (bins : List ℕ) (val : ℕ) :
    (histStep bins val).length = bins.length := List.length_set bins _ _

theorem getD_histStep (bins : List ℕ) (hlen : bins.length = 16) (val b : ℕ) :
    (histStep bins val).getD b 0 =
      bins.getD b 0 + (if min (val / 16) 15 = b then 1 else 0) := by
  have hidx : min (val / 16) 15 < bins.length := by
    rw [hlen]
    exact lt_of_le_of_lt (min_le_right _ _) (by norm_num)
  by_cases hb : min (val / 16) 15 = b
  · rw [if_pos hb]
    subst hb
    simp [histStep, List.getD_eq_getElem?_getD, List.getElem?_set, hidx]
  · rw [if_neg hb]
    simp [histStep, List.getD_eq_getElem?_getD, List.getElem?_set, hb]

theorem foldl_histStep_getD (l : List ℕ) :
    ∀ bins : List ℕ, bins.length = 16 → ∀ b : ℕ,
      (l.foldl histStep bins).getD b 0 =
        bins.getD b 0 + l.countP (fun v => decide (min (v / 16) 15 = b)) := by
  induction l with
  | nil => intro bins _ b; simp
  | cons x xs ih =>
    intro bins hlen b
    have hlen2 : (histStep bins x).length = 16 := by rw [histStep_length, hlen]
    rw [List.foldl_cons, ih (histStep bins x) hlen2 b, getD_histStep bins hlen x b,
      List.countP_cons]
    by_cases hb : min (x / 16) 15 = b <;> simp [hb] <;> omega

theorem sum_set_incr : ∀ (bins : List ℕ) (i : ℕ), i < bins.length →
    (bins.set i (bins.getD i 0 + 1)).sum = bins.sum + 1 := by
  intro bins
  induction bins with
  | nil => intro i hi; simp at hi
  | cons a t ih =>
    intro i hi
    cases i with
    | zero =>
      simp only [List.getD_cons_zero, List.set_cons_zero, List.sum_cons]
      omega
    | succ j =>
      have hj : j < t.length := by simpa using hi
      simp only [List.getD_cons_succ, List.set_cons_succ, List.sum_cons, ih j hj]
      omega

theorem foldl_histStep_sum (l : List ℕ) :
    ∀ bins : List ℕ, bins.length = 16 →
      (l.foldl histStep bins).sum = bins.sum + l.length := by
  induction l with
  | nil => intro bins _; simp
  | cons x xs ih =>
    intro bins hlen
    have hidx : min (x / 16) 15 < bins.length := by
      rw [hlen]
      exact lt_of_le_of_lt (min_le_right _ _) (by norm_num)
    have hlen2 : (histStep bins x).length = 16 := by rw [histStep_length, hlen]
    rw [List.foldl_cons, ih (histStep bins x) hlen2]
    unfold histStep
    rw [sum_set_incr bins _ hidx, List.length_cons]
    omega

theorem foldl_histStep_length (l : List ℕ) :
    ∀ bins : List ℕ, (l.foldl histStep bins).length = bins.length := by
  induction l with
  | nil => intro bins; rfl
  | cons x xs ih =>
    intro bins
    rw [List.foldl_cons, ih, histStep_length]

theorem getD_replicate_zero (b : ℕ) : (List.replicate 16 (0 : ℕ)).getD b 0 = 0 := by
  rw [List.getD_eq_getElem?_getD, List.getElem?_replicate]
  split <;> rfl

theorem dedup_replicate (k : ℕ) : ∀ n : ℕ, 0 < n → (List.replicate n k).dedup = [k] := by
  intro n
  induction n with
  | zero => intro h; cases h
  | succ m ih =>
    intro _
    cases m with
    | zero => simp
    | succ j =>
      have hk : k ∈ List.replicate (j + 1) k := by simp [List.mem_replicate]
      rw [List.replicate_succ, List.dedup_cons_of_mem hk]
      exact ih (Nat.succ_pos j)

theorem foldl_min_replicate (k : ℕ) : ∀ m : ℕ, (List.replicate m k).foldl Nat.min k = k := by
  intro m
  induction m with
  | zero => rfl
  | succ j ih =>
    have hk : Nat.min k k = k := Nat.min_self k
    rw [List.replicate_succ, List.foldl_cons, hk]
    exact ih

theorem foldl_max_replicate (k : ℕ) : ∀ m : ℕ, (List.replicate m k).foldl Nat.max k = k := by
  intro m
  induction m with
  | zero => rfl
  | succ j ih =>
    have hk : Nat.max k k = k := Nat.max_self k
    rw [List.replicate_succ, List.foldl_cons, hk]
    exact ih

theorem isConstant_replicate (k n : ℕ) (h : 0 < n) :
    isConstant (List.replicate n k) = true := by
  obtain ⟨m, rfl⟩ : ∃ m, n = m + 1 := ⟨n - 1, by omega⟩
  simp [isConstant, List.replicate_succ, List.all_eq_true, List.mem_replicate]

theorem floor_div_256 (a : ℤ) : ⌊(a : ℚ) / 256⌋ = a / 256 := by
  have h := Rat.floor_intCast_div_natCast a 256
  norm_num at h
  exact h

theorem yuv_to_rgb_float_235 : yuv_to_rgb_float 235 128 128 = (235, 235, 235) := by
  unfold yuv_to_rgb_float toByte
  norm_num
  decide

theorem length_flatMap_const {α β : Type} (l : List α) (f : α → List β) (n : ℕ)
    (hf : ∀ a ∈ l, (f a).length = n) : (l.flatMap f).length = l.length * n := by
  induction l with
  | nil => simp
  | cons x xs ih =>
    rw [List.flatMap_cons, List.length_append, hf x (List.mem_cons_self x xs),
      ih (fun a ha => hf a (List.mem_cons_of_mem x ha)), List.length_cons]
    ring

theorem flatMap_const_replicate {α β : Type} (l : List α) (n : ℕ) (c : β) :
    l.flatMap (fun _ => List.replicate n c) = List.replicate (l.length * n) c := by
  induction l with
  | nil => simp
  | cons x xs ih =>
    rw [List.flatMap_cons, ih, List.length_cons,
      show (xs.length + 1) * n = n + xs.length * n by ring, List.replicate_add]

/-- C1 counterexample.  The claim states that the integer BT.601 path and the
floating-point BT.601 path agree within 2 in every channel for all byte
inputs.  It is false: the integer path is limited-range (it scales `y - 16`
by 298/256) while the floating-point path is full-range (it uses `y`
directly), so at (235,128,128) the integer path yields (255,255,255) and the
floating-point path (235,235,235), a per-channel difference of 20.  At this
input every float32 operation of the original numpy code is exact, so the
rational model is exact as well. -/
theorem int_float_paths_within_two_false :
    ¬ (∀ y u v : ℕ, y ≤ 255 → u ≤ 255 → v ≤ 255 →
      Nat.dist (yuv_to_rgb y u v).1 (yuv_to_rgb_float y u v).1 ≤ 2 ∧
      Nat.dist (yuv_to_rgb y u v).2.1 (yuv_to_rgb_float y u v).2.1 ≤ 2 ∧
      Nat.dist (yuv_to_rgb y u v).2.2 (yuv_to_rgb_float y u v).2.2 ≤ 2) := by
  intro hcl
  obtain ⟨h1, -, -⟩ :=
    hcl 235 128 128 (by norm_num) (by norm_num) (by norm_num)
  have hint : yuv_to_rgb 235 128 128 = (255, 255, 255) := by decide
  rw [yuv_to_rgb_float_235, hint] at h1
  simp [Nat.dist] at h1

/-- C1 amended: the two conversion paths do not agree within 2 per channel;
at (235,128,128) the integer path gives (255,255,255), the floating-point
path gives (235,235,235), and every channel differs by 20. -/
theorem int_float_paths_divergence :
    yuv_to_rgb 235 128 128 = (255, 255, 255) ∧
    yuv_to_rgb_float 235 128 128 = (235, 235, 235) ∧
    Nat.dist 255 235 = 20 ∧ 2 < Nat.dist 255 235 := by
  refine ⟨by decide, yuv_to_rgb_float_235, by decide, by decide⟩

/-- C2 counterexample.  The claim states that extracting frame 0 from a
nonempty stream shorter than one frame yields a ShortRead carrying the byte
count, while an empty stream yields EndOfStream, two distinguishable results.
The code returns the same undifferentiated `None, None, None` in both cases:
a 1-byte stream and the empty stream produce identical results and no byte
count is carried anywhere. -/
theorem short_and_empty_reads_indistinguishable :
    read_yuv_frame [42] 0 = none ∧ read_yuv_frame [] 0 = none ∧
    read_yuv_frame [42] 0 = read_yuv_frame [] 0 := by
  refine ⟨by decide, by decide, by decide⟩

/-- C2 amended: for every stream shorter than one FRAME_SIZE (whether empty
or a truncated partial frame), reading frame 0 returns the single
undifferentiated failure value `none`; short read and end of stream are not
distinguished and no partial byte count is reported. -/
theorem short_stream_reads_none (file : List ℕ) (h : file.length < FRAME_SIZE) :
    read_yuv_frame file 0 = none := by
  have hcond : ((file.drop (0 * FRAME_SIZE)).take FRAME_SIZE).length ≠ FRAME_SIZE := by
    rw [List.length_take, List.length_drop]
    omega
  simp only [read_yuv_frame, if_pos hcond]

/-- C2 witness: a concrete 5-byte stream is shorter than FRAME_SIZE and reads
as `none`. -/
theorem short_stream_reads_none_witness :
    (List.replicate 5 9 : List ℕ).length < FRAME_SIZE ∧
    read_yuv_frame (List.replicate 5 9) 0 = none := by
  have h : (List.replicate 5 9 : List ℕ).length < FRAME_SIZE := by decide
  exact ⟨h, short_stream_reads_none (List.replicate 5 9) h⟩

/-- C3 counterexample.  The claim states that diffing two planes of unequal
shape yields a ShapeMismatch error and no per-sample difference statistics.
The code has no shape check: `zip` silently truncates to the shorter plane
and full statistics are produced, here for planes of lengths 2 and 1. -/
theorem diff_stats_produced_for_unequal_shapes :
    plane_diffs [0, 1] [5] = [5] ∧ max_diff [0, 1] [5] = 5 ∧
    avg_diff [0, 1] [5] = 5 ∧ big_diffs [0, 1] [5] = 0 := by
  refine ⟨by decide, by decide, ?_, by decide⟩
  norm_num [avg_diff, listMean, plane_diffs, absDiff]

/-- C3 amended: the frame comparison performs no shape check and returns no
ShapeMismatch; for planes of unequal length the per-sample difference list is
silently truncated to the shorter length, and the statistics (here the mean)
are computed over that truncated list. -/
theorem plane_diffs_truncates (p1 p2 : List ℕ) (h : p1.length ≠ p2.length) :
    (plane_diffs p1 p2).length = min p1.length p2.length ∧
    avg_diff p1 p2 =
      ((plane_diffs p1 p2).sum : ℚ) / ((min p1.length p2.length : ℕ) : ℚ) := by
  have hlen : (plane_diffs p1 p2).length = min p1.length p2.length := by
    simp [plane_diffs, List.length_zipWith]
  refine ⟨hlen, ?_⟩
  unfold avg_diff listMean
  rw [hlen]

/-- C3 witness: concrete planes of lengths 2 and 1. -/
theorem plane_diffs_truncates_witness :
    ([0, 1] : List ℕ).length ≠ ([5] : List ℕ).length ∧
    (plane_diffs [0, 1] [5]).length = min ([0, 1] : List ℕ).length ([5] : List ℕ).length := by
  have h : ([0, 1] : List ℕ).length ≠ ([5] : List ℕ).length := by decide
  exact ⟨h, (plane_diffs_truncates [0, 1] [5] h).1⟩

/-- C6: for every resolution (the evenness and positivity hypotheses of the
claim are stated but the formula needs none of them) the frame size is
width*height + 2*(width/2)*(height/2); the frame count of a stream is its
byte length floor-divided by FRAME_SIZE, and the remainder bytes of a
trailing partial frame are discarded from the count. -/
theorem frame_size_and_count (w h n r total : ℕ)
    (hw2 : w % 2 = 0) (hh2 : h % 2 = 0) (hw : 0 < w) (hh : 0 < h)
    (hr : r < FRAME_SIZE) :
    frameSizeOf w h = w * h + 2 * ((w / 2) * (h / 2)) ∧
    get_frame_count total = total / FRAME_SIZE ∧
    get_frame_count (n * FRAME_SIZE + r) = n := by
  refine ⟨rfl, rfl, ?_⟩
  unfold get_frame_count
  have hF : 0 < FRAME_SIZE := by decide
  rw [Nat.mul_comm n FRAME_SIZE, Nat.mul_add_div hF, Nat.div_eq_of_lt hr]
  omega

/-- C6 witness: resolution 2x2, a stream of 3 whole frames plus 7 trailing
bytes counts exactly 3 frames. -/
theorem frame_size_and_count_witness :
    ((2 : ℕ) % 2 = 0 ∧ (0 : ℕ) < 2 ∧ (7 : ℕ) < FRAME_SIZE) ∧
    frameSizeOf 2 2 = 2 * 2 + 2 * ((2 / 2) * (2 / 2)) ∧
    get_frame_count 1000000 = 1000000 / FRAME_SIZE ∧
    get_frame_count (3 * FRAME_SIZE + 7) = 3 := by
  have h1 : (2 : ℕ) % 2 = 0 := by decide
  have h2 : (0 : ℕ) < 2 := by decide
  have h3 : (7 : ℕ) < FRAME_SIZE := by decide
  exact ⟨⟨h1, h2, h3⟩, frame_size_and_count 2 2 3 7 1000000 h1 h1 h2 h2 h3⟩

/-- C9 counterexample.  The claim states that the layout computation fails
with InvalidResolution when width or height is zero or odd.  The scripts
never validate: at the odd width 3 and height 2 the code computes a layout
(ySize 6, uvSize 1, frameSize 8) where the spec-modelled contract demands the
error. -/
theorem layout_no_validation_counterexample :
    planeLayoutCode 3 2 = Except.ok ⟨6, 1, 8⟩ ∧
    planeLayoutSpec 3 2 = Except.error LayoutError.InvalidResolution ∧
    planeLayoutCode 3 2 ≠ planeLayoutSpec 3 2 := by
  refine ⟨rfl, rfl, ?_⟩
  intro hcontra
  simp [planeLayoutCode, planeLayoutSpec] at hcontra

/-- C9 amended: the code's layout computation is total — it succeeds with the
floor-division sizes for every width and height, including zero and odd ones
— and it agrees with the spec-modelled contract exactly on the valid (even,
positive) resolutions. -/
theorem layout_total_amended (w h : ℕ) :
    planeLayoutCode w h =
      Except.ok ⟨w * h, (w / 2) * (h / 2), w * h + 2 * ((w / 2) * (h / 2))⟩ ∧
    (w % 2 = 0 → h % 2 = 0 → 0 < w → 0 < h →
      planeLayoutCode w h = planeLayoutSpec w h) := by
  refine ⟨rfl, ?_⟩
  intro hw2 hh2 hw hh
  have hcond : ¬ (w = 0 ∨ h = 0 ∨ w % 2 = 1 ∨ h % 2 = 1) := by omega
  unfold planeLayoutCode planeLayoutSpec
  rw [if_neg hcond]

/-- C9 witness: the valid resolution 4x2, on which code and spec contract
agree. -/
theorem layout_total_amended_witness :
    ((4 : ℕ) % 2 = 0 ∧ (2 : ℕ) % 2 = 0 ∧ (0 : ℕ) < 4 ∧ (0 : ℕ) < 2) ∧
    planeLayoutCode 4 2 =
      Except.ok ⟨4 * 2, (4 / 2) * (2 / 2), 4 * 2 + 2 * ((4 / 2) * (2 / 2))⟩ ∧
    planeLayoutCode 4 2 = planeLayoutSpec 4 2 := by
  have h4 : (4 : ℕ) % 2 = 0 := by decide
  have h2 : (2 : ℕ) % 2 = 0 := by decide
  have hp4 : (0 : ℕ) < 4 := by decide
  have hp2 : (0 : ℕ) < 2 := by decide
  obtain ⟨ha, hb⟩ := layout_total_amended 4 2
  exact ⟨⟨h4, h2, hp4, hp2⟩, ha, hb h4 h2 hp4 hp2⟩

/-- C4: for every byte triple, the integer conversion equals the reference
formula with true floor division (toward negative infinity) of the
pre-rounded integer sum by 256, and the BT.601 black and white points map to
(0,0,0) and (255,255,255) exactly. -/
theorem convertPixel_formula_and_refpoints (y u v : ℕ)
    (hy : y ≤ 255) (hu : u ≤ 255) (hv : v ≤ 255) :
    yuv_to_rgb y u v =
      (clamp8 ⌊(298 * ((y : ℚ) - 16) + 409 * ((v : ℚ) - 128) + 128) / 256⌋,
       clamp8 ⌊(298 * ((y : ℚ) - 16) - 100 * ((u : ℚ) - 128) -
         208 * ((v : ℚ) - 128) + 128) / 256⌋,
       clamp8 ⌊(298 * ((y : ℚ) - 16) + 516 * ((u : ℚ) - 128) + 128) / 256⌋) ∧
    yuv_to_rgb 16 128 128 = (0, 0, 0) ∧
    yuv_to_rgb 235 128 128 = (255, 255, 255) := by
  refine ⟨?_, by decide, by decide⟩
  have hr : (298 * ((y : ℚ) - 16) + 409 * ((v : ℚ) - 128) + 128)
      = ((298 * ((y : ℤ) - 16) + 409 * ((v : ℤ) - 128) + 128 : ℤ) : ℚ) := by
    push_cast
    ring
  have hg : (298 * ((y : ℚ) - 16) - 100 * ((u : ℚ) - 128) -
        208 * ((v : ℚ) - 128) + 128)
      = ((298 * ((y : ℤ) - 16) - 100 * ((u : ℤ) - 128) -
        208 * ((v : ℤ) - 128) + 128 : ℤ) : ℚ) := by
    push_cast
    ring
  have hb : (298 * ((y : ℚ) - 16) + 516 * ((u : ℚ) - 128) + 128)
      = ((298 * ((y : ℤ) - 16) + 516 * ((u : ℤ) - 128) + 128 : ℤ) : ℚ) := by
    push_cast
    ring
  rw [hr, hg, hb, floor_div_256, floor_div_256, floor_div_256]
  rfl

/-- C4 witness: the theorem applied at (16,128,128). -/
theorem convertPixel_formula_and_refpoints_witness :
    ((16 : ℕ) ≤ 255 ∧ (128 : ℕ) ≤ 255) ∧
    yuv_to_rgb 16 128 128 = (0, 0, 0) ∧
    yuv_to_rgb 235 128 128 = (255, 255, 255) := by
  have h16 : (16 : ℕ) ≤ 255 := by decide
  have h128 : (128 : ℕ) ≤ 255 := by decide
  obtain ⟨-, hblack, hwhite⟩ :=
    convertPixel_formula_and_refpoints 16 128 128 h16 h128 h128
  exact ⟨⟨h16, h128⟩, hblack, hwhite⟩

/-- C5: over any non-empty plane the analysis returns the true minimum and
maximum, the exact rational mean, the number of distinct sample values, and
a 16-bucket histogram in which bucket b counts exactly the samples with
min(sample/16, 15) = b and whose bucket counts sum to the sample count. -/
theorem analyze_plane_stats (l : List ℕ) (hl : l ≠ []) :
    (listMin l ∈ l ∧ ∀ x ∈ l, listMin l ≤ x) ∧
    (listMax l ∈ l ∧ ∀ x ∈ l, x ≤ listMax l) ∧
    listMean l = (l.sum : ℚ) / (l.length : ℚ) ∧
    uniqueCount l = l.toFinset.card ∧
    (∀ b : ℕ, (histogram16 l).getD b 0 =
      l.countP (fun v => decide (min (v / 16) 15 = b))) ∧
    (histogram16 l).sum = l.length ∧
    (histogram16 l).length = 16 := by
  have hrep : (List.replicate 16 (0 : ℕ)).length = 16 := by simp
  refine ⟨?_, ?_, rfl, (List.card_toFinset l).symm, ?_, ?_, ?_⟩
  · obtain ⟨x, xs, rfl⟩ := List.exists_cons_of_ne_nil hl
    constructor
    · rcases foldl_min_eq_or_mem xs x with h | h
      · simp only [listMin]
        rw [h]
        exact List.mem_cons_self x xs
      · simp only [listMin]
        exact List.mem_cons_of_mem x h
    · intro s hs
      rcases List.mem_cons.mp hs with h | h
      · subst h
        simp only [listMin]
        exact foldl_min_le_init xs s
      · simp only [listMin]
        exact foldl_min_le_mem xs x s h
  · obtain ⟨x, xs, rfl⟩ := List.exists_cons_of_ne_nil hl
    constructor
    · rcases foldl_max_eq_or_mem xs x with h | h
      · simp only [listMax]
        rw [h]
        exact List.mem_cons_self x xs
      · simp only [listMax]
        exact List.mem_cons_of_mem x h
    · intro s hs
      rcases List.mem_cons.mp hs with h | h
      · subst h
        simp only [listMax]
        exact foldl_max_ge_init xs s
      · simp only [listMax]
        exact foldl_max_ge_mem xs x s h
  · intro b
    rw [histogram16, foldl_histStep_getD l (List.replicate 16 0) hrep b,
      getD_replicate_zero, Nat.zero_add]
  · rw [histogram16, foldl_histStep_sum l (List.replicate 16 0) hrep]
    simp
  · rw [histogram16, foldl_histStep_length]
    simp

/-- C5 witness: the theorem applied at the concrete plane [3, 7, 3, 250]. -/
theorem analyze_plane_stats_witness :
    (([3, 7, 3, 250] : List ℕ) ≠ []) ∧
    uniqueCount [3, 7, 3, 250] = ([3, 7, 3, 250] : List ℕ).toFinset.card ∧
    (histogram16 [3, 7, 3, 250]).sum = ([3, 7, 3, 250] : List ℕ).length := by
  have h : ([3, 7, 3, 250] : List ℕ) ≠ [] := by decide
  obtain ⟨-, -, -, h4, -, h6, -⟩ := analyze_plane_stats [3, 7, 3, 250] h
  exact ⟨h, h4, h6⟩

/-- C7 counterexample.  The claim states that the low-luminance-contrast
finding is emitted with severity warning exactly when max - min < 20.  On a
Y plane of range 25 the basic analyzer (threshold 20) emits nothing, while
the enhanced analyzer emits its low-Y-range finding — with threshold 30 and
into its CRITICAL issues list, not as a warning. -/
theorem low_contrast_rule_counterexample :
    listMax [100, 125] - listMin [100, 125] = 25 ∧
    BasicIssue.lowLuminanceContrast ∉ basicIssues [100, 125] [128] [128] ∧
    enhCriticals [100, 125] = [EnhCritical.veryLowYRange 25] := by
  refine ⟨by decide, by decide, by decide⟩

/-- C7 amended: the basic analyzer appends its low-luminance-contrast issue
exactly when max - min < 20 (strict), but into a single undifferentiated
issues list with no severity levels; the enhanced analyzer emits its
low-Y-range issue exactly when max - min < 30 and classifies it as critical
(it is an element of the critical issues list). -/
theorem low_contrast_rule_amended (y u v : List ℕ) (hy : y ≠ []) :
    (BasicIssue.lowLuminanceContrast ∈ basicIssues y u v ↔
      listMax y - listMin y < 20) ∧
    (EnhCritical.veryLowYRange (listMax y - listMin y) ∈ enhCriticals y ↔
      listMax y - listMin y < 30) := by
  constructor
  · simp [basicIssues, List.mem_append, mem_ite_single]
  · simp [enhCriticals, List.mem_append, mem_ite_single]

/-- C7 witness: the amended rule evaluated on the concrete plane [0, 100]. -/
theorem low_contrast_rule_amended_witness :
    (([0, 100] : List ℕ) ≠ []) ∧
    (BasicIssue.lowLuminanceContrast ∈ basicIssues [0, 100] [128] [128] ↔
      listMax [0, 100] - listMin [0, 100] < 20) ∧
    (EnhCritical.veryLowYRange (listMax [0, 100] - listMin [0, 100]) ∈
      enhCriticals [0, 100] ↔ listMax [0, 100] - listMin [0, 100] < 30) := by
  have h : ([0, 100] : List ℕ) ≠ [] := by decide
  exact ⟨h, low_contrast_rule_amended [0, 100] [128] [128] h⟩

/-- C8 counterexample.  The claim states that a constant plane triggers a
solid-color finding with severity critical.  In the enhanced analyzer there
is no solid-color rule at all: with a constant U plane (and a healthy Y
plane) the critical issues list is empty, and the constant plane only
surfaces as a low-diversity warning. -/
theorem solid_color_critical_counterexample :
    uniqueCount [128, 128] = 1 ∧
    isConstant [128, 128] = true ∧
    enhCriticals [10, 100] = [] ∧
    enhWarnings [10, 100] [128, 128] [130, 7] =
      [EnhWarning.lowYDiversity 2, EnhWarning.lowUDiversity 1,
       EnhWarning.lowVDiversity 2] := by
  refine ⟨by decide, by decide, by decide, ?_⟩
  have h1 : uniqueCount ([10, 100] : List ℕ) = 2 := by decide
  have h2 : uniqueCount ([128, 128] : List ℕ) = 1 := by decide
  have h3 : uniqueCount ([130, 7] : List ℕ) = 2 := by decide
  have hcount : List.countP (fun val => val == 0) ([10, 100] : List ℕ) = 0 := by
    decide
  have hlen : ([10, 100] : List ℕ).length = 2 := by decide
  unfold enhWarnings
  rw [h1, h2, h3, hcount, hlen]
  norm_num

/-- C8 amended: a plane of n copies of k has min = k, max = k and
uniqueCount = 1, and the basic analyzer reports the constant plane — but in
its single undifferentiated issues list with no severity attached (here the
U-plane constant-value message). -/
theorem constant_plane_stats_and_issue (k n : ℕ) (y v : List ℕ) (hn : 0 < n) :
    listMin (List.replicate n k) = k ∧
    listMax (List.replicate n k) = k ∧
    uniqueCount (List.replicate n k) = 1 ∧
    BasicIssue.uConstant ∈ basicIssues y (List.replicate n k) v := by
  obtain ⟨m, rfl⟩ : ∃ m, n = m + 1 := ⟨n - 1, by omega⟩
  refine ⟨?_, ?_, ?_, ?_⟩
  · rw [List.replicate_succ]
    simp only [listMin]
    exact foldl_min_replicate k m
  · rw [List.replicate_succ]
    simp only [listMax]
    exact foldl_max_replicate k m
  · unfold uniqueCount
    rw [dedup_replicate k (m + 1) (Nat.succ_pos m)]
    rfl
  · have hc : isConstant (List.replicate (m + 1) k) = true :=
      isConstant_replicate k (m + 1) (Nat.succ_pos m)
    simp [basicIssues, List.mem_append, mem_ite_single, hc]

/-- C8 witness: the theorem applied to three copies of 7 as U plane. -/
theorem constant_plane_stats_and_issue_witness :
    (0 : ℕ) < 3 ∧
    listMin (List.replicate 3 7) = 7 ∧
    listMax (List.replicate 3 7) = 7 ∧
    uniqueCount (List.replicate 3 7) = 1 ∧
    BasicIssue.uConstant ∈ basicIssues [10, 100] (List.replicate 3 7) [130, 7] := by
  have h : (0 : ℕ) < 3 := by decide
  obtain ⟨h1, h2, h3, h4⟩ := constant_plane_stats_and_issue 7 3 [10, 100] [130, 7] h
  exact ⟨h, h1, h2, h3, h4⟩

/-- Helper for C10: the full-frame conversion always yields exactly
VIDEO_WIDTH * VIDEO_HEIGHT pixels, whatever the plane lengths. -/
theorem yuv420_manual_length (yp up vp : List ℕ) :
    (yuv420_to_rgb_manual yp up vp).length = VIDEO_WIDTH * VIDEO_HEIGHT := by
  unfold yuv420_to_rgb_manual
  rw [length_flatMap_const (List.range VIDEO_HEIGHT) _ VIDEO_WIDTH
    (fun a _ => by simp), List.length_range, Nat.mul_comm]

/-- Helper for C10: on empty planes every sample falls back to the defaults
0 (Y) and 128 (U/V), giving a constant full-size frame. -/
theorem yuv420_manual_empty :
    yuv420_to_rgb_manual [] [] [] =
      List.replicate (VIDEO_WIDTH * VIDEO_HEIGHT) (yuv_to_rgb 0 128 128) := by
  unfold yuv420_to_rgb_manual
  simp only [List.length_nil, Nat.not_lt_zero, if_false]
  have hmap : (List.range VIDEO_WIDTH).map (fun _ => yuv_to_rgb 0 128 128) =
      List.replicate VIDEO_WIDTH (yuv_to_rgb 0 128 128) := by
    rw [List.map_const']
    simp
  rw [hmap, flatMap_const_replicate, List.length_range,
    Nat.mul_comm VIDEO_HEIGHT VIDEO_WIDTH]

/-- C10: the conversion is total — it returns a full width*height pixel
sequence for planes of any length; when the planes have exactly the YUV420
sizes every Y index row*width+col and every chroma index
(row/2)*(width/2)+col/2 used by the loop is in bounds, so the fallback
branches are unreachable; and for missing samples (here the extreme case of
empty planes) the conversion substitutes 0 for Y and neutral 128 for U and V
in every pixel. -/
theorem conversion_total_and_in_bounds (yp up vp : List ℕ) (row col : ℕ) :
    (yuv420_to_rgb_manual yp up vp).length = VIDEO_WIDTH * VIDEO_HEIGHT ∧
    (yp.length = Y_SIZE → up.length = UV_SIZE → vp.length = UV_SIZE →
      row < VIDEO_HEIGHT → col < VIDEO_WIDTH →
      row * VIDEO_WIDTH + col < yp.length ∧
      (row / 2) * (VIDEO_WIDTH / 2) + col / 2 < up.length ∧
      (row / 2) * (VIDEO_WIDTH / 2) + col / 2 < vp.length) ∧
    yuv420_to_rgb_manual [] [] [] =
      List.replicate (VIDEO_WIDTH * VIDEO_HEIGHT) (yuv_to_rgb 0 128 128) := by
  refine ⟨yuv420_manual_length yp up vp, ?_, yuv420_manual_empty⟩
  intro h1 h2 h3 hrow hcol
  rw [h1, h2, h3]
  simp only [Y_SIZE, UV_SIZE, ySizeOf, uvSizeOf, VIDEO_WIDTH, VIDEO_HEIGHT]
    at hrow hcol ⊢
  omega

/-- C10 witness: exact-size constant planes with the pixel position (1,2). -/
theorem conversion_total_and_in_bounds_witness :
    ((List.replicate Y_SIZE (0 : ℕ)).length = Y_SIZE ∧
     (List.replicate UV_SIZE (0 : ℕ)).length = UV_SIZE ∧
     (1 : ℕ) < VIDEO_HEIGHT ∧ (2 : ℕ) < VIDEO_WIDTH) ∧
    (1 * VIDEO_WIDTH + 2 < (List.replicate Y_SIZE (0 : ℕ)).length ∧
     (1 / 2) * (VIDEO_WIDTH / 2) + 2 / 2 < (List.replicate UV_SIZE (0 : ℕ)).length ∧
     (1 / 2) * (VIDEO_WIDTH / 2) + 2 / 2 < (List.replicate UV_SIZE (0 : ℕ)).length) := by
  have hy : (List.replicate Y_SIZE (0 : ℕ)).length = Y_SIZE := by simp
  have huv : (List.replicate UV_SIZE (0 : ℕ)).length = UV_SIZE := by simp
  have hrow : (1 : ℕ) < VIDEO_HEIGHT := by decide
  have hcol : (2 : ℕ) < VIDEO_WIDTH := by decide
  obtain ⟨-, h, -⟩ := conversion_total_and_in_bounds (List.replicate Y_SIZE 0)
    (List.replicate UV_SIZE 0) (List.replicate UV_SIZE 0) 1 2
  exact ⟨⟨hy, huv, hrow, hcol⟩, h hy huv huv hrow hcol⟩
